import Mathlib

/-!
# Verification of the vespa eval core (expression compiler + interpreter)

The repository snapshot under verification contains the public contract of
the eval core (`tensor_engine.h`, `simple_tensor_engine.h`,
`default_tensor_engine.h`) and its interpreter test suite
(`interpreted_function_test.cpp`), while the implementation translation
units (`function.cpp`, `interpreted_function.cpp`, the engine .cpp files)
are not part of the snapshot. Except where noted, the definitions below
are therefore modelled from the specification of the core: values, sparse
tensors and the five tensor algebra primitives, the expression AST, the
instruction compiler with its typed dot-product fusion, the fueled
forward-jump stack interpreter with its `if_cnt` diagnostic counter, issue
detection for non-compilable lambdas, a scalar-fragment expression parser,
and the engine-private binary codecs. Scalar numbers are modelled as
integers (every scalar of the claims under verification is integral), so
"within floating tolerance" becomes exact equality.

The base-class `TensorEngine::compile` is present in the snapshot
(`tensor_engine.h`) and is embedded directly from that source.
-/

namespace VespaEval

/-! ## Values and tensors -/

/-- Modelled from the spec: a tensor cell coordinate — indexed (dense)
dimensions use numeric coordinates, mapped (sparse) dimensions use string
labels. -/
inductive Coord where
  | idx (n : ℕ)
  | lbl (s : String)
deriving DecidableEq

/-- Modelled from the spec: a cell address, an association of dimension
names with coordinates, kept in the tensor's dimension order. -/
abbrev Addr := List (String × Coord)

/-- Modelled from the spec: the structural tensor representation
(`TensorSpec`-equivalent): an ordered dimension list (name, optional size;
`none` = mapped/unbounded) plus a sparse list of cells. -/
structure STensor where
  dims : List (String × Option ℕ)
  cells : List (Addr × ℤ)
deriving DecidableEq

/-- Modelled from the spec: the tagged evaluation result — scalar double,
opaque tensor, or error marker. -/
inductive Value where
  | double (v : ℤ)
  | tensor (t : STensor)
  | error
deriving DecidableEq

/-- Modelled from the spec: `Value::is_double`. -/
def Value.is_double : Value → Bool
  | .double _ => true
  | _ => false

/-- Modelled from the spec: `Value::is_tensor`. -/
def Value.is_tensor : Value → Bool
  | .tensor _ => true
  | _ => false

/-- Modelled from the spec: `Value::is_error`. -/
def Value.is_error : Value → Bool
  | .error => true
  | _ => false

/-- Modelled from the spec: `Value::as_double`, with the scalar content of
a double value and a default for the other tags. -/
def Value.as_double : Value → ℤ
  | .double v => v
  | _ => 0

/-- Modelled from the spec: the aggregator kinds accepted by `reduce`. -/
inductive Aggr where
  | sum
  | avg
  | count
  | min
  | max
deriving DecidableEq

/-- Modelled from the spec: fold a cell-value list with one aggregator. -/
def aggr_all : Aggr → List ℤ → ℤ
  | .sum, xs => xs.foldl (· + ·) 0
  | .avg, xs => if xs.length = 0 then 0 else xs.foldl (· + ·) 0 / xs.length
  | .count, xs => xs.length
  | .min, xs =>
    match xs with
    | [] => 0
    | x :: r => r.foldl Min.min x
  | .max, xs =>
    match xs with
    | [] => 0
    | x :: r => r.foldl Max.max x

/-! ## Tensor algebra primitives (spec §4.6 numeric semantics) -/

/-- The dimension names of a tensor, in order. -/
def STensor.names (t : STensor) : List String := t.dims.map (·.1)

/-- Restrict an address to the dimensions in `keep`. -/
def projAddr (keep : List String) (a : Addr) : Addr :=
  a.filter (fun p => keep.contains p.1)

/-- Two addresses agree on every dimension named in `shared`. -/
def agreeOn (shared : List String) (a b : Addr) : Bool :=
  shared.all (fun n => a.lookup n == b.lookup n)

/-- Merge two aligned addresses: the first address's entries, then the
entries of the second for dimensions the first lacks. -/
def mergeAddr (a b : Addr) : Addr :=
  a ++ b.filter (fun p => !(a.map (·.1)).contains p.1)

/-- Modelled from the spec: `join` on the structural representation —
outer union of the dimension sets, a binary scalar function applied per
aligned cell pair; `none` when shared dimensions have incompatible
sizes (the ValueError case). -/
def joinTT (f : ℤ → ℤ → ℤ) (a b : STensor) : Option STensor :=
  let shared := a.names.filter (fun n => b.names.contains n)
  if shared.all (fun n => a.dims.lookup n == b.dims.lookup n) then
    some { dims := a.dims ++ b.dims.filter (fun d => !a.names.contains d.1),
           cells := a.cells.flatMap (fun ca =>
             b.cells.filterMap (fun cb =>
               if agreeOn shared ca.1 cb.1 then
                 some (mergeAddr ca.1 cb.1, f ca.2 cb.2)
               else none)) }
  else none

/-- Modelled from the spec: `map` on the structural representation —
apply a unary scalar function cell-wise, preserving shape. -/
def mapTT (f : ℤ → ℤ) (t : STensor) : STensor :=
  { t with cells := t.cells.map (fun c => (c.1, f c.2)) }

/-- Insert a cell value into the group keyed by its projected address. -/
def insertG (a : Addr) (v : ℤ) : List (Addr × List ℤ) → List (Addr × List ℤ)
  | [] => [(a, [v])]
  | (b, vs) :: rest =>
    if b = a then (b, v :: vs) :: rest else (b, vs) :: insertG a v rest

/-- Modelled from the spec: `reduce` on the structural representation —
collapse the named dimensions (all of them when the list is empty) with
the aggregator; scalar result when every dimension is removed. -/
def reduceTT (g : Aggr) (ds : List String) (t : STensor) : Value :=
  let rm := if ds.isEmpty then t.names else ds
  let keep := t.dims.filter (fun d => !rm.contains d.1)
  if keep.isEmpty then
    .double (aggr_all g (t.cells.map (·.2)))
  else
    let keepNames := keep.map (·.1)
    let groups := t.cells.foldl (fun acc c => insertG (projAddr keepNames c.1) c.2 acc) []
    .tensor { dims := keep, cells := groups.map (fun gr => (gr.1, aggr_all g gr.2.reverse)) }

/-- View a value as a structural tensor: a double is the zero-dimension
single-cell tensor, an error has no tensor view. -/
def toT : Value → Option STensor
  | .double v => some { dims := [], cells := [([], v)] }
  | .tensor t => some t
  | .error => none

/-- Collapse a structural tensor back to a value: the zero-dimension case
is a scalar double. -/
def fromT (t : STensor) : Value :=
  match t.dims with
  | [] =>
    match t.cells with
    | (_, v) :: _ => .double v
    | [] => .double 0
  | _ => .tensor t

/-- Modelled from the spec: value-level `join` — scalar arithmetic on two
doubles, the tensor algebra `join` otherwise, errors propagating. -/
def joinV (f : ℤ → ℤ → ℤ) (a b : Value) : Value :=
  match toT a, toT b with
  | some x, some y =>
    match joinTT f x y with
    | some t => fromT t
    | none => .error
  | _, _ => .error

/-- Modelled from the spec: value-level `map`. -/
def mapV (a : Value) (f : ℤ → ℤ) : Value :=
  match a with
  | .double v => .double (f v)
  | .tensor t => .tensor (mapTT f t)
  | .error => .error

/-- Modelled from the spec: value-level `reduce`; reducing a double over
no named dimensions aggregates its single cell, naming dimensions on a
double or missing dimensions on a tensor is the ValueError case. -/
def reduceV (g : Aggr) (ds : List String) (a : Value) : Value :=
  match a with
  | .double v => if ds.isEmpty then .double (aggr_all g [v]) else .error
  | .tensor t => if ds.all (fun n => t.names.contains n) then reduceTT g ds t else .error
  | .error => .error

/-- Shift the coordinate of dimension `d` by `off` in one cell. -/
def shiftCell (d : String) (off : ℕ) (c : Addr × ℤ) : Addr × ℤ :=
  (c.1.map (fun p =>
    if p.1 = d then
      (p.1, match p.2 with
            | .idx n => Coord.idx (n + off)
            | .lbl s => Coord.lbl s)
    else p), c.2)

/-- Modelled from the spec: `concat` on the structural representation —
append along an indexed dimension both tensors carry, requiring all other
dimensions to match. -/
def concatTT (d : String) (a b : STensor) : Option STensor :=
  match a.dims.lookup d, b.dims.lookup d with
  | some (some sa), some (some sb) =>
    if a.dims.filter (fun p => p.1 ≠ d) = b.dims.filter (fun p => p.1 ≠ d) then
      some { dims := a.dims.map (fun p => if p.1 = d then (p.1, some (sa + sb)) else p),
             cells := a.cells ++ b.cells.map (shiftCell d sa) }
    else none
  | _, _ => none

/-- Modelled from the spec: value-level `concat`, errors propagating. -/
def concatV (d : String) (a b : Value) : Value :=
  match a, b with
  | .tensor x, .tensor y =>
    match concatTT d x y with
    | some t => .tensor t
    | none => .error
  | _, _ => .error

/-- Rename one dimension name through the `from`/`to` lists. -/
def renName (fr toL : List String) (n : String) : String :=
  match fr.findIdx? (fun m => m = n) with
  | some i => toL.getD i n
  | none => n

/-- Modelled from the spec: `rename` — a pure relabeling, shape
preserving; `none` when the lists disagree in length or name a missing
dimension. -/
def renameTT (fr toL : List String) (t : STensor) : Option STensor :=
  if fr.length = toL.length && fr.all (fun n => t.names.contains n) then
    some { dims := t.dims.map (fun p => (renName fr toL p.1, p.2)),
           cells := t.cells.map (fun c => (c.1.map (fun p => (renName fr toL p.1, p.2)), c.2)) }
  else none

/-- Modelled from the spec: value-level `rename`, errors propagating. -/
def renameV (fr toL : List String) (a : Value) : Value :=
  match a with
  | .tensor t =>
    match renameTT fr toL t with
    | some r => .tensor r
    | none => .error
  | _ => .error

/-! ## Expression AST (Function) -/

/-- Modelled from the spec: the immutable expression tree — constants,
parameter references, arithmetic/comparison operators with a conditional,
and the tensor primitives `map`, `join`, `reduce`, `concat`, `rename` and
dense tensor construction, the last three of which carry inline lambdas
whose bodies use their own parameter scope. -/
inductive Node where
  | num (v : ℤ)
  | param (i : ℕ)
  | add (a b : Node)
  | sub (a b : Node)
  | mul (a b : Node)
  | div (a b : Node)
  | less (a b : Node)
  | if_ (c t e : Node)
  | map_ (a : Node) (lam : Node)
  | join_ (a b : Node) (lam : Node)
  | reduce_ (a : Node) (g : Aggr) (ds : List String)
  | concat_ (a b : Node) (d : String)
  | rename_ (a : Node) (fr toL : List String)
  | create_ (dims : List (String × ℕ)) (lam : Node)
deriving DecidableEq

/-- Modelled from the spec: scalar evaluation of a lambda body against its
own parameter bindings; tensor-level operators have no scalar meaning and
contribute a default (issue detection rejects such lambdas up front). -/
def sval : Node → List ℤ → ℤ
  | .num v, _ => v
  | .param i, env => env.getD i 0
  | .add a b, env => sval a env + sval b env
  | .sub a b, env => sval a env - sval b env
  | .mul a b, env => sval a env * sval b env
  | .div a b, env => sval a env / sval b env
  | .less a b, env => if sval a env < sval b env then 1 else 0
  | .if_ c t e, env => if sval c env ≠ 0 then sval t env else sval e env
  | .map_ _ _, _ => 0
  | .join_ _ _ _, _ => 0
  | .reduce_ _ _ _, _ => 0
  | .concat_ _ _ _, _ => 0
  | .rename_ _ _ _, _ => 0
  | .create_ _ _, _ => 0

/-- The scalar operator selectors carried by binary instructions. -/
inductive Op2 where
  | addOp
  | subOp
  | mulOp
  | divOp
  | lessOp
deriving DecidableEq

/-- The scalar function of a binary operator selector. -/
def fn2 : Op2 → ℤ → ℤ → ℤ
  | .addOp => (· + ·)
  | .subOp => (· - ·)
  | .mulOp => (· * ·)
  | .divOp => (· / ·)
  | .lessOp => fun a b => if a < b then 1 else 0

/-- Modelled from the spec: the truth of a condition value — a nonzero
scalar double. -/
def isTrue : Value → Bool
  | .double v => v ≠ 0
  | _ => false

/-- Enumerate every address of a dense index space, in row-major order. -/
def enumAddrs : List (String × ℕ) → List Addr
  | [] => [[]]
  | (n, s) :: rest =>
    (List.range s).flatMap (fun i => (enumAddrs rest).map (fun a => (n, Coord.idx i) :: a))

/-- The coordinates of an address as scalar lambda arguments. -/
def coordArgs (a : Addr) : List ℤ :=
  a.map (fun p =>
    match p.2 with
    | .idx n => (n : ℤ)
    | .lbl _ => 0)

/-- Modelled from the spec: dense tensor construction from a lambda over
the index space of the declared dimensions. -/
def createV (dims : List (String × ℕ)) (lam : Node) : Value :=
  .tensor { dims := dims.map (fun p => (p.1, some p.2)),
            cells := (enumAddrs dims).map (fun a => (a, sval lam (coordArgs a))) }

/-- Modelled from the spec: the denotational result of an expression tree
against a parameter binding list — the common semantics every engine and
every compilation path must reproduce. -/
def denote : Node → List Value → Value
  | .num v, _ => .double v
  | .param i, ps => ps.getD i .error
  | .add a b, ps => joinV (fn2 .addOp) (denote a ps) (denote b ps)
  | .sub a b, ps => joinV (fn2 .subOp) (denote a ps) (denote b ps)
  | .mul a b, ps => joinV (fn2 .mulOp) (denote a ps) (denote b ps)
  | .div a b, ps => joinV (fn2 .divOp) (denote a ps) (denote b ps)
  | .less a b, ps => joinV (fn2 .lessOp) (denote a ps) (denote b ps)
  | .if_ c t e, ps => if isTrue (denote c ps) then denote t ps else denote e ps
  | .map_ a lam, ps => mapV (denote a ps) (fun x => sval lam [x])
  | .join_ a b lam, ps => joinV (fun x y => sval lam [x, y]) (denote a ps) (denote b ps)
  | .reduce_ a g ds, ps => reduceV g ds (denote a ps)
  | .concat_ a b d, ps => concatV d (denote a ps) (denote b ps)
  | .rename_ a fr toL, ps => renameV fr toL (denote a ps)
  | .create_ dims lam, _ => createV dims lam

/-- Modelled from the spec: the number of conditionals evaluated during
one evaluation of the tree — exactly one per executed `if`, counting only
the taken branch's conditionals below it. -/
def ifCount : Node → List Value → ℕ
  | .num _, _ => 0
  | .param _, _ => 0
  | .add a b, ps => ifCount a ps + ifCount b ps
  | .sub a b, ps => ifCount a ps + ifCount b ps
  | .mul a b, ps => ifCount a ps + ifCount b ps
  | .div a b, ps => ifCount a ps + ifCount b ps
  | .less a b, ps => ifCount a ps + ifCount b ps
  | .if_ c t e, ps =>
    ifCount c ps + 1 + (if isTrue (denote c ps) then ifCount t ps else ifCount e ps)
  | .map_ a _, ps => ifCount a ps
  | .join_ a b _, ps => ifCount a ps + ifCount b ps
  | .reduce_ a _ _, ps => ifCount a ps
  | .concat_ a b _, ps => ifCount a ps + ifCount b ps
  | .rename_ a _ _, ps => ifCount a ps
  | .create_ _ _, _ => 0

/-! ## Issue detection (spec §4.1) -/

/-- Whether a tree contains a tensor-level (tensor-producing) operator
anywhere. -/
def has_tensor_op : Node → Bool
  | .num _ => false
  | .param _ => false
  | .add a b => has_tensor_op a || has_tensor_op b
  | .sub a b => has_tensor_op a || has_tensor_op b
  | .mul a b => has_tensor_op a || has_tensor_op b
  | .div a b => has_tensor_op a || has_tensor_op b
  | .less a b => has_tensor_op a || has_tensor_op b
  | .if_ c t e => has_tensor_op c || has_tensor_op t || has_tensor_op e
  | .map_ _ _ => true
  | .join_ _ _ _ => true
  | .reduce_ _ _ _ => true
  | .concat_ _ _ _ => true
  | .rename_ _ _ _ => true
  | .create_ _ _ => true

/-- Modelled from the spec: walk every lambda body passed to `map`,
`join` or tensor construction and flag any tensor-producing operator
found inside it. -/
def issue_list : Node → List String
  | .num _ => []
  | .param _ => []
  | .add a b => issue_list a ++ issue_list b
  | .sub a b => issue_list a ++ issue_list b
  | .mul a b => issue_list a ++ issue_list b
  | .div a b => issue_list a ++ issue_list b
  | .less a b => issue_list a ++ issue_list b
  | .if_ c t e => issue_list c ++ issue_list t ++ issue_list e
  | .map_ a lam =>
    issue_list a ++
      (if has_tensor_op lam then ["lambda function that performs tensor operations"] else []) ++
      issue_list lam
  | .join_ a b lam =>
    issue_list a ++ issue_list b ++
      (if has_tensor_op lam then ["lambda function that performs tensor operations"] else []) ++
      issue_list lam
  | .reduce_ a _ _ => issue_list a
  | .concat_ a b _ => issue_list a ++ issue_list b
  | .rename_ a _ _ => issue_list a
  | .create_ _ lam =>
    (if has_tensor_op lam then ["lambda function that performs tensor operations"] else []) ++
      issue_list lam

/-- Modelled from the spec: a parsed Function — an ordered parameter
count and either a root node or the parse error message (never a
partially built tree). -/
structure FunctionM where
  numParams : ℕ
  root : Except String Node

/-- Modelled from the spec: `Function::has_error`. -/
def FunctionM.has_error (f : FunctionM) : Bool :=
  match f.root with
  | .error _ => true
  | .ok _ => false

/-- Modelled from the spec: `InterpretedFunction::detect_issues` — true
exactly when the walk found an offending lambda body. -/
def detect_issues (f : FunctionM) : Bool :=
  match f.root with
  | .ok n => !(issue_list n).isEmpty
  | .error _ => false

/-- The independent characterization of an offending function: some
lambda body passed to `map`, `join` or tensor construction contains a
tensor-level operation. -/
inductive HasBadLambda : Node → Prop
  | add_l {a b} : HasBadLambda a → HasBadLambda (.add a b)
  | add_r {a b} : HasBadLambda b → HasBadLambda (.add a b)
  | sub_l {a b} : HasBadLambda a → HasBadLambda (.sub a b)
  | sub_r {a b} : HasBadLambda b → HasBadLambda (.sub a b)
  | mul_l {a b} : HasBadLambda a → HasBadLambda (.mul a b)
  | mul_r {a b} : HasBadLambda b → HasBadLambda (.mul a b)
  | div_l {a b} : HasBadLambda a → HasBadLambda (.div a b)
  | div_r {a b} : HasBadLambda b → HasBadLambda (.div a b)
  | less_l {a b} : HasBadLambda a → HasBadLambda (.less a b)
  | less_r {a b} : HasBadLambda b → HasBadLambda (.less a b)
  | if_c {c t e} : HasBadLambda c → HasBadLambda (.if_ c t e)
  | if_t {c t e} : HasBadLambda t → HasBadLambda (.if_ c t e)
  | if_e {c t e} : HasBadLambda e → HasBadLambda (.if_ c t e)
  | map_here {a lam} : has_tensor_op lam = true → HasBadLambda (.map_ a lam)
  | map_arg {a lam} : HasBadLambda a → HasBadLambda (.map_ a lam)
  | map_lam {a lam} : HasBadLambda lam → HasBadLambda (.map_ a lam)
  | join_here {a b lam} : has_tensor_op lam = true → HasBadLambda (.join_ a b lam)
  | join_l {a b lam} : HasBadLambda a → HasBadLambda (.join_ a b lam)
  | join_r {a b lam} : HasBadLambda b → HasBadLambda (.join_ a b lam)
  | join_lam {a b lam} : HasBadLambda lam → HasBadLambda (.join_ a b lam)
  | reduce_arg {a g ds} : HasBadLambda a → HasBadLambda (.reduce_ a g ds)
  | concat_l {a b d} : HasBadLambda a → HasBadLambda (.concat_ a b d)
  | concat_r {a b d} : HasBadLambda b → HasBadLambda (.concat_ a b d)
  | rename_arg {a fr toL} : HasBadLambda a → HasBadLambda (.rename_ a fr toL)
  | create_here {dims lam} : has_tensor_op lam = true → HasBadLambda (.create_ dims lam)
  | create_lam {dims lam} : HasBadLambda lam → HasBadLambda (.create_ dims lam)

/-! ## Value types and the tensor IR (spec §4.2, §4.3) -/

/-- Modelled from the spec: the resolved type of a value — error, scalar
double, a tensor with named dimensions, or the conservative
unknown-tensor marker used when no type information is available. -/
inductive VType where
  | err
  | dbl
  | tens (dims : List (String × Option ℕ))
  | any
deriving DecidableEq

/-- A type concrete enough for tensor-function specialization: a tensor
whose every dimension is indexed with a known size. -/
def concrete_tensor : VType → Bool
  | .tens ds => ds.all (fun d => d.2.isSome)
  | _ => false

/-- Modelled from the spec: the NodeTypes pass — the declared input types
(empty for the untyped degenerate pass, where every parameter resolves to
the unknown-tensor marker). -/
structure NodeTypesM where
  inputTypes : List VType

/-- Modelled from the spec: the untyped `NodeTypes()`. -/
def NodeTypesM.empty : NodeTypesM := ⟨[]⟩

/-- The resolved type of a parameter under a NodeTypes pass. -/
def NodeTypesM.paramType (nt : NodeTypesM) (i : ℕ) : VType :=
  nt.inputTypes.getD i .any

/-- Modelled from the spec: the engine-agnostic tensor IR — explicit
tensor-operation nodes over parameter leaves, rewritable by a back-end
optimizer; `tdot` is the fused dot-product primitive a back-end may
rewrite to. -/
inductive TF where
  | tparam (i : ℕ)
  | tjoinMul (a b : TF)
  | treduce (a : TF) (g : Aggr) (ds : List String)
  | tdot (i j : ℕ)
deriving DecidableEq

/-- Modelled from the spec: the fixed input/output semantics of an IR
tree, which every back-end rewrite must preserve exactly. -/
def interpTF : TF → List Value → Value
  | .tparam i, ps => ps.getD i .error
  | .tjoinMul a b, ps => joinV (fn2 .mulOp) (interpTF a ps) (interpTF b ps)
  | .treduce a g ds, ps => reduceV g ds (interpTF a ps)
  | .tdot i j, ps => reduceV .sum [] (joinV (fn2 .mulOp) (ps.getD i .error) (ps.getD j .error))

/-- Embedded from `src/eval/src/vespa/eval/eval/tensor_engine.h` line 48:
the base-class `TensorEngine::compile` returns its argument unchanged. -/
def compile_default (expr : TF) : TF := expr

/-- Modelled from the spec: the default engine's optimizer recognizes the
full sum-reduction of a parameter product as its dot-product primitive
and leaves every other tree unchanged. -/
def dot_rewrite : TF → TF
  | .treduce (.tjoinMul (.tparam i) (.tparam j)) .sum [] => .tdot i j
  | t => t

/-! ## The binary codec token stream (spec §6 encode/decode) -/

/-- Modelled from the spec: one token of the engine-private self
describing byte stream. -/
inductive Tok where
  | tnat (n : ℕ)
  | tstr (s : String)
  | trat (q : ℤ)
deriving DecidableEq

/-! ## TensorEngine (spec §4.6 contract) -/

/-- Modelled from the spec: the back-end contract — the five tensor
algebra primitives, structural equality, the engine-private binary codec
and the IR optimizer. -/
structure Engine where
  map : Value → (ℤ → ℤ) → Value
  join : (ℤ → ℤ → ℤ) → Value → Value → Value
  reduce : Aggr → List String → Value → Value
  concat : String → Value → Value → Value
  rename : List String → List String → Value → Value
  equalT : Value → Value → Bool
  encode : Value → List Tok
  decode : List Tok → Option (Value × List Tok)
  compileIR : TF → TF

/-! ## Instructions, compilation and execution (spec §4.4, §4.5) -/

/-- Modelled from the spec: one fixed-layout instruction — an operation
selector plus its packed immediate operand (jump displacement, parameter
index, operator selector, or side-table reference to lambda/IR
payloads). -/
inductive Instr where
  | push (v : Value)
  | load (i : ℕ)
  | op2 (k : Op2)
  | condJump (skip : ℕ)
  | jump (skip : ℕ)
  | mapI (lam : Node)
  | joinI (lam : Node)
  | reduceI (g : Aggr) (ds : List String)
  | concatI (d : String)
  | renameI (fr toL : List String)
  | createI (dims : List (String × ℕ)) (lam : Node)
  | tfInstr (t : TF)
  | errorInstr

/-- Recognize the typed tensor-function fusion candidate: a product of
two parameters whose declared types are concrete tensors. -/
def fusionOf (nt : NodeTypesM) : Node → Option TF
  | .mul (.param i) (.param j) =>
    if concrete_tensor (nt.paramType i) && concrete_tensor (nt.paramType j) then
      some (TF.tjoinMul (.tparam i) (.tparam j))
    else none
  | _ => none

/-- Modelled from the spec: post-order instruction selection — one
instruction per operator, a conditional branch pair for `if`, and a
single tensor-function instruction for a typed reduction over a fused
candidate, after handing the IR to the engine optimizer. -/
def compileN (eng : Engine) (nt : NodeTypesM) : Node → List Instr
  | .num v => [.push (.double v)]
  | .param i => [.load i]
  | .add a b => compileN eng nt a ++ compileN eng nt b ++ [.op2 .addOp]
  | .sub a b => compileN eng nt a ++ compileN eng nt b ++ [.op2 .subOp]
  | .mul a b => compileN eng nt a ++ compileN eng nt b ++ [.op2 .mulOp]
  | .div a b => compileN eng nt a ++ compileN eng nt b ++ [.op2 .divOp]
  | .less a b => compileN eng nt a ++ compileN eng nt b ++ [.op2 .lessOp]
  | .if_ c t e =>
    let tc := compileN eng nt t
    let ec := compileN eng nt e
    compileN eng nt c ++ [.condJump (tc.length + 1)] ++ tc ++ [.jump ec.length] ++ ec
  | .map_ a lam => compileN eng nt a ++ [.mapI lam]
  | .join_ a b lam => compileN eng nt a ++ compileN eng nt b ++ [.joinI lam]
  | .reduce_ a g ds =>
    match fusionOf nt a with
    | some tf => [.tfInstr (eng.compileIR (TF.treduce tf g ds))]
    | none => compileN eng nt a ++ [.reduceI g ds]
  | .concat_ a b d => compileN eng nt a ++ compileN eng nt b ++ [.concatI d]
  | .rename_ a fr toL => compileN eng nt a ++ [.renameI fr toL]
  | .create_ dims lam => [.createI dims lam]

/-- Modelled from the spec: the per-evaluation mutable context state —
the operand stack and the taken-branch diagnostic counter. -/
structure EState where
  stack : List Value
  ifCnt : ℕ
deriving DecidableEq

/-- Replace the top stack value. -/
def pop1 (st : EState) (f : Value → Value) : EState :=
  match st.stack with
  | v :: r => ⟨f v :: r, st.ifCnt⟩
  | [] => ⟨[.error], st.ifCnt⟩

/-- Replace the top two stack values (the second-pushed on top). -/
def pop2 (st : EState) (f : Value → Value → Value) : EState :=
  match st.stack with
  | b :: a :: r => ⟨f a b :: r, st.ifCnt⟩
  | _ => ⟨[.error], st.ifCnt⟩

/-- Modelled from the spec: the binary-operator instruction computes
scalar arithmetic directly on two doubles and delegates to the engine's
`join` otherwise. -/
def op2sem (eng : Engine) (k : Op2) (a b : Value) : Value :=
  match a, b with
  | .double x, .double y => .double (fn2 k x y)
  | _, _ => eng.join (fn2 k) a b

/-- Modelled from the spec: the single-threaded forward-only linear scan
over the remaining instruction program; a jump skips the given number of
following instructions, a conditional branch pops its condition, bumps
the taken-branch counter and skips when the condition is false. The fuel
argument dominates the program length, so the scan is total. -/
def exec (eng : Engine) (ps : List Value) : ℕ → List Instr → EState → EState
  | 0, _, st => st
  | _ + 1, [], st => st
  | fuel + 1, ins :: rest, st =>
    match ins with
    | .push v => exec eng ps fuel rest ⟨v :: st.stack, st.ifCnt⟩
    | .load i => exec eng ps fuel rest ⟨ps.getD i .error :: st.stack, st.ifCnt⟩
    | .op2 k => exec eng ps fuel rest (pop2 st (op2sem eng k))
    | .condJump skip =>
      let c := st.stack.headD .error
      let st' : EState := ⟨st.stack.tail, st.ifCnt + 1⟩
      if isTrue c then exec eng ps fuel rest st'
      else exec eng ps fuel (rest.drop skip) st'
    | .jump skip => exec eng ps fuel (rest.drop skip) st
    | .mapI lam => exec eng ps fuel rest (pop1 st (fun a => eng.map a (fun x => sval lam [x])))
    | .joinI lam => exec eng ps fuel rest (pop2 st (eng.join (fun x y => sval lam [x, y])))
    | .reduceI g ds => exec eng ps fuel rest (pop1 st (eng.reduce g ds))
    | .concatI d => exec eng ps fuel rest (pop2 st (eng.concat d))
    | .renameI fr toL => exec eng ps fuel rest (pop1 st (eng.rename fr toL))
    | .createI dims lam => exec eng ps fuel rest ⟨createV dims lam :: st.stack, st.ifCnt⟩
    | .tfInstr t => exec eng ps fuel rest ⟨interpTF t ps :: st.stack, st.ifCnt⟩
    | .errorInstr => exec eng ps fuel rest ⟨Value.error :: st.stack, st.ifCnt⟩

/-- Run a whole program from a fresh state with adequate fuel. -/
def execRun (eng : Engine) (ps : List Value) (prog : List Instr) (st : EState) : EState :=
  exec eng ps prog.length prog st

/-- Modelled from the spec: the compiled, immutable instruction program
bound to one engine, with the parameter count it expects. -/
structure InterpretedFunctionM where
  prog : List Instr
  numParams : ℕ

/-- Modelled from the spec: `InterpretedFunction(engine, function,
node_types)` — a parse-errored function compiles to the single
always-error instruction, everything else to its instruction
selection. -/
def makeIF (eng : Engine) (f : FunctionM) (nt : NodeTypesM) : InterpretedFunctionM :=
  { numParams := f.numParams,
    prog :=
      match f.root with
      | .error _ => [Instr.errorInstr]
      | .ok n => compileN eng nt n }

/-- Modelled from the spec: `InterpretedFunction::program_size`. -/
def program_size (ifun : InterpretedFunctionM) : ℕ := ifun.prog.length

/-- Modelled from the spec: `InterpretedFunction::num_params`. -/
def num_params (ifun : InterpretedFunctionM) : ℕ := ifun.numParams

/-- Run a program in a fresh context. -/
def runProg (eng : Engine) (ifun : InterpretedFunctionM) (ps : List Value) : EState :=
  execRun eng ps ifun.prog ⟨[], 0⟩

/-- Modelled from the spec: `InterpretedFunction::eval` — the top of the
operand stack after the scan, with a parameter-count mismatch surfacing
as the error value. -/
def evalIF (eng : Engine) (ifun : InterpretedFunctionM) (ps : List Value) : Value :=
  if ps.length = ifun.numParams then
    (runProg eng ifun ps).stack.headD .error
  else .error

/-- Modelled from the spec: `Context::if_cnt` after one evaluation in a
fresh context. -/
def if_cnt (eng : Engine) (ifun : InterpretedFunctionM) (ps : List Value) : ℕ :=
  (runProg eng ifun ps).ifCnt

/-! ## The engine-private binary codecs -/

/-- Encode one coordinate. -/
def encCoord : Coord → List Tok
  | .idx n => [.tnat 0, .tnat n]
  | .lbl s => [.tnat 1, .tstr s]

/-- Decode one coordinate. -/
def decCoord : List Tok → Option (Coord × List Tok)
  | .tnat 0 :: .tnat n :: r => some (.idx n, r)
  | .tnat 1 :: .tstr s :: r => some (.lbl s, r)
  | _ => none

/-- Encode one address with a length prefix. -/
def encAddr (a : Addr) : List Tok :=
  Tok.tnat a.length :: a.flatMap (fun p => Tok.tstr p.1 :: encCoord p.2)

/-- Decode a counted run of address entries. -/
def decAddrEntries : ℕ → List Tok → Option (Addr × List Tok)
  | 0, r => some ([], r)
  | n + 1, .tstr s :: r =>
    match decCoord r with
    | some (c, r₁) =>
      match decAddrEntries n r₁ with
      | some (rest, r₂) => some ((s, c) :: rest, r₂)
      | none => none
    | none => none
  | _ + 1, _ => none

/-- Decode one address. -/
def decAddr : List Tok → Option (Addr × List Tok)
  | .tnat n :: r => decAddrEntries n r
  | _ => none

/-- Encode one dimension; a mapped dimension is tagged zero and an
indexed size is shifted by one. -/
def encDim (d : String × Option ℕ) : List Tok :=
  match d.2 with
  | none => [.tstr d.1, .tnat 0]
  | some s => [.tstr d.1, .tnat (s + 1)]

/-- Decode one dimension. -/
def decDim : List Tok → Option ((String × Option ℕ) × List Tok)
  | .tstr s :: .tnat 0 :: r => some ((s, none), r)
  | .tstr s :: .tnat (k + 1) :: r => some ((s, some k), r)
  | _ => none

/-- Decode a counted run of dimensions. -/
def decDims : ℕ → List Tok → Option (List (String × Option ℕ) × List Tok)
  | 0, r => some ([], r)
  | n + 1, r =>
    match decDim r with
    | some (d, r₁) =>
      match decDims n r₁ with
      | some (rest, r₂) => some (d :: rest, r₂)
      | none => none
    | none => none

/-- Encode one cell. -/
def encCell (c : Addr × ℤ) : List Tok := encAddr c.1 ++ [.trat c.2]

/-- Decode one cell. -/
def decCell (ts : List Tok) : Option ((Addr × ℤ) × List Tok) :=
  match decAddr ts with
  | some (a, .trat v :: r) => some ((a, v), r)
  | _ => none

/-- Decode a counted run of cells. -/
def decCells : ℕ → List Tok → Option (List (Addr × ℤ) × List Tok)
  | 0, r => some ([], r)
  | n + 1, r =>
    match decCell r with
    | some (c, r₁) =>
      match decCells n r₁ with
      | some (rest, r₂) => some (c :: rest, r₂)
      | none => none
    | none => none

/-- Encode a structural tensor: counted dimensions, then counted cells —
self-describing with no external type hints. -/
def encodeT (t : STensor) : List Tok :=
  Tok.tnat t.dims.length :: t.dims.flatMap encDim ++
    Tok.tnat t.cells.length :: t.cells.flatMap encCell

/-- Decode a structural tensor. -/
def decodeT (ts : List Tok) : Option (STensor × List Tok) :=
  match ts with
  | .tnat nd :: r =>
    match decDims nd r with
    | some (ds, .tnat nc :: r₁) =>
      match decCells nc r₁ with
      | some (cs, r₂) => some (⟨ds, cs⟩, r₂)
      | none => none
    | _ => none
  | _ => none

/-- Modelled from the spec: the reference engine's `encode` — a tagged,
self-describing token stream. -/
def simple_encode : Value → List Tok
  | .double v => [.tnat 0, .trat v]
  | .tensor t => Tok.tnat 1 :: encodeT t
  | .error => [.tnat 2]

/-- Modelled from the spec: the reference engine's `decode`, consuming a
prefix of the stream and needing nothing beyond the bytes themselves. -/
def simple_decode : List Tok → Option (Value × List Tok)
  | .tnat 0 :: .trat v :: r => some (.double v, r)
  | .tnat 1 :: r =>
    match decodeT r with
    | some (t, r₁) => some (.tensor t, r₁)
    | none => none
  | .tnat 2 :: r => some (.error, r)
  | _ => none

/-- Modelled from the spec: the default engine's engine-private format —
a leading magic tag in front of the same self-describing payload. -/
def default_encode (v : Value) : List Tok := Tok.tnat 77 :: simple_encode v

/-- Modelled from the spec: the default engine's `decode`. -/
def default_decode : List Tok → Option (Value × List Tok)
  | .tnat 77 :: r => simple_decode r
  | _ => none

/-! ## The two engines -/

/-- Modelled from the spec: the reference back-end
(`SimpleTensorEngine`) — the shared algebra primitives, structural
equality, its private codec, and the inherited identity `compile`
(embedded from `tensor_engine.h`; `simple_tensor_engine.h` declares no
override). -/
def simpleEngine : Engine :=
  { map := mapV,
    join := joinV,
    reduce := reduceV,
    concat := concatV,
    rename := renameV,
    equalT := fun a b => a == b,
    encode := simple_encode,
    decode := simple_decode,
    compileIR := compile_default }

/-- Modelled from the spec: the optimized default back-end
(`DefaultTensorEngine`) — the same fixed algebra semantics, its own
codec, and an overriding `compile` that rewrites the fused dot-product
pattern. -/
def defaultEngine : Engine :=
  { map := mapV,
    join := joinV,
    reduce := reduceV,
    concat := concatV,
    rename := renameV,
    equalT := fun a b => a == b,
    encode := default_encode,
    decode := default_decode,
    compileIR := dot_rewrite }

/-- An engine conforming to the fixed numeric semantics of the contract:
its primitives are the spec algebra and its optimizer preserves the IR
semantics exactly. -/
structure Conforming (eng : Engine) : Prop where
  map_eq : eng.map = mapV
  join_eq : eng.join = joinV
  reduce_eq : eng.reduce = reduceV
  concat_eq : eng.concat = concatV
  rename_eq : eng.rename = renameV
  compile_sem : ∀ t ps, interpTF (eng.compileIR t) ps = interpTF t ps

/-! ## The expression parser (spec §4.1, scalar fragment) -/

/-- One token of the expression grammar's scalar fragment. -/
inductive PTok where
  | tnum (v : ℤ)
  | tid (s : String)
  | tlp
  | trp
  | tcomma
  | tplus
  | tminus
  | tstar
  | tslash
  | tlt
deriving DecidableEq

/-- Accumulate a run of digits into a natural number. -/
def lexNum : List Char → ℕ → ℕ × List Char
  | c :: cs, acc =>
    if c.isDigit then lexNum cs (acc * 10 + (c.toNat - 48)) else (acc, c :: cs)
  | [], acc => (acc, [])

/-- Accumulate a run of identifier characters. -/
def lexId : List Char → List Char → String × List Char
  | c :: cs, acc =>
    if c.isAlphanum || c = '_' then lexId cs (c :: acc)
    else (String.mk acc.reverse, c :: cs)
  | [], acc => (String.mk acc.reverse, [])

/-- Modelled from the spec: the tokenizer of the scalar operator
fragment; any character outside the grammar (such as the invalid operator
ampersand) fails the whole tokenization. -/
def tokF : ℕ → List Char → Option (List PTok)
  | _, [] => some []
  | 0, _ :: _ => none
  | fuel + 1, c :: cs =>
    if c = ' ' then tokF fuel cs
    else if c = '(' then (tokF fuel cs).map (fun ts => PTok.tlp :: ts)
    else if c = ')' then (tokF fuel cs).map (fun ts => PTok.trp :: ts)
    else if c = ',' then (tokF fuel cs).map (fun ts => PTok.tcomma :: ts)
    else if c = '+' then (tokF fuel cs).map (fun ts => PTok.tplus :: ts)
    else if c = '-' then (tokF fuel cs).map (fun ts => PTok.tminus :: ts)
    else if c = '*' then (tokF fuel cs).map (fun ts => PTok.tstar :: ts)
    else if c = '/' then (tokF fuel cs).map (fun ts => PTok.tslash :: ts)
    else if c = '<' then (tokF fuel cs).map (fun ts => PTok.tlt :: ts)
    else if c.isDigit then
      match lexNum (c :: cs) 0 with
      | (n, rest) => (tokF fuel rest).map (fun ts => PTok.tnum (n : ℤ) :: ts)
    else if c.isAlpha then
      match lexId (c :: cs) [] with
      | (s, rest) => (tokF fuel rest).map (fun ts => PTok.tid s :: ts)
    else none

/-- The precedence and constructor of a binary operator token. -/
def binPrec : PTok → Option (ℕ × (Node → Node → Node))
  | .tlt => some (1, Node.less)
  | .tplus => some (2, Node.add)
  | .tminus => some (2, Node.sub)
  | .tstar => some (3, Node.mul)
  | .tslash => some (3, Node.div)
  | _ => none

/-- The mode of the precedence-climbing recursion. -/
inductive PM where
  | expr (mp : ℕ)
  | atom
  | loop (mp : ℕ) (lhs : Node)

/-- Modelled from the spec: precedence-climbing recursive descent over
the token list — numbers, named parameters, parenthesized expressions,
unary minus, the `if(c,t,e)` conditional and the binary operators with
standard precedence. -/
def pRun (env : List String) : ℕ → PM → List PTok → Option (Node × List PTok)
  | 0, _, _ => none
  | fuel + 1, .expr mp, ts =>
    match pRun env fuel .atom ts with
    | some (l, ts₁) => pRun env fuel (.loop mp l) ts₁
    | none => none
  | fuel + 1, .atom, ts =>
    match ts with
    | .tnum v :: ts₁ => some (.num v, ts₁)
    | .tid s :: ts₁ =>
      if s = "if" then
        match ts₁ with
        | .tlp :: ts₂ =>
          match pRun env fuel (.expr 0) ts₂ with
          | some (c, .tcomma :: ts₃) =>
            match pRun env fuel (.expr 0) ts₃ with
            | some (t, .tcomma :: ts₄) =>
              match pRun env fuel (.expr 0) ts₄ with
              | some (e, .trp :: ts₅) => some (.if_ c t e, ts₅)
              | _ => none
            | _ => none
          | _ => none
        | _ => none
      else
        match env.findIdx? (fun p => p = s) with
        | some i => some (.param i, ts₁)
        | none => none
    | .tlp :: ts₁ =>
      match pRun env fuel (.expr 0) ts₁ with
      | some (e, .trp :: ts₂) => some (e, ts₂)
      | _ => none
    | .tminus :: ts₁ =>
      match pRun env fuel .atom ts₁ with
      | some (e, ts₂) => some (.sub (.num 0) e, ts₂)
      | none => none
    | _ => none
  | fuel + 1, .loop mp lhs, ts =>
    match ts with
    | [] => some (lhs, [])
    | op :: ts₁ =>
      match binPrec op with
      | some pr =>
        if mp ≤ pr.1 then
          match pRun env fuel (.expr (pr.1 + 1)) ts₁ with
          | some (r, ts₂) => pRun env fuel (.loop mp (pr.2 lhs r)) ts₂
          | none => none
        else some (lhs, ts)
      | none => some (lhs, ts)

/-- Modelled from the spec: `Function::parse` over the scalar-operator
fragment of the grammar (the tensor-primitive keywords are omitted from
this model) — on any syntax error the Function carries the error message
and no tree. -/
def parseF (pnames : List String) (text : String) : FunctionM :=
  { numParams := pnames.length,
    root :=
      match tokF text.data.length text.data with
      | none => Except.error ("parse error: invalid token")
      | some ts =>
        match pRun pnames ((ts.length + 1) * (ts.length + 1) * 4) (.expr 0) ts with
        | some (n, []) => Except.ok n
        | some (_, _ :: _) => Except.error ("parse error: trailing tokens")
        | none => Except.error ("parse error") }

/-! ## Concrete material from the interpreter test suite -/

/-- The dimension list of a tensor value (empty for non-tensors). -/
def value_dims : Value → List (String × Option ℕ)
  | .tensor t => t.dims
  | _ => []

/-- The cell of a tensor value at one address. -/
def value_cell (v : Value) (a : Addr) : Option ℤ :=
  match v with
  | .tensor t => (t.cells.find? (fun c => decide (c.1 = a))).map (·.2)
  | _ => none

/-- The AST of `if(a<10,if(a<9,if(a<8,if(a<7,5,4),3),2),1)`. -/
def nested_if_ast : Node :=
  .if_ (.less (.param 0) (.num 10))
    (.if_ (.less (.param 0) (.num 9))
      (.if_ (.less (.param 0) (.num 8))
        (.if_ (.less (.param 0) (.num 7)) (.num 5) (.num 4))
        (.num 3))
      (.num 2))
    (.num 1)

/-- The one-parameter function holding the nested-if expression. -/
def nested_if_fn : FunctionM := ⟨1, Except.ok nested_if_ast⟩

/-- The AST of `reduce(a*b,sum)`. -/
def dot_ast : Node := .reduce_ (.mul (.param 0) (.param 1)) .sum []

/-- The two-parameter function holding `reduce(a*b,sum)`. -/
def dot_fn : FunctionM := ⟨2, Except.ok dot_ast⟩

/-- The declared type `tensor(x[3])`. -/
def tx3 : VType := .tens [("x", some 3)]

/-- The tensor `tensor(x[3])` with values `[5,3,2]`. -/
def vec_a : STensor :=
  ⟨[("x", some 3)], [([("x", .idx 0)], 5), ([("x", .idx 1)], 3), ([("x", .idx 2)], 2)]⟩

/-- The tensor `tensor(x[3])` with values `[7,11,13]`. -/
def vec_b : STensor :=
  ⟨[("x", some 3)], [([("x", .idx 0)], 7), ([("x", .idx 1)], 11), ([("x", .idx 2)], 13)]⟩

/-- The AST of `reduce(a*b,sum,y)`. -/
def mat_ast : Node := .reduce_ (.mul (.param 0) (.param 1)) .sum ["y"]

/-- The two-parameter function holding `reduce(a*b,sum,y)`. -/
def mat_fn : FunctionM := ⟨2, Except.ok mat_ast⟩

/-- The declared type `tensor(x[2],y[2])`. -/
def txy : VType := .tens [("x", some 2), ("y", some 2)]

/-- The matrix `tensor(x[2],y[2])` with rows `[1,2]` and `[3,5]`. -/
def mat_a : STensor :=
  ⟨[("x", some 2), ("y", some 2)],
   [([("x", .idx 0), ("y", .idx 0)], 1), ([("x", .idx 0), ("y", .idx 1)], 2),
    ([("x", .idx 1), ("y", .idx 0)], 3), ([("x", .idx 1), ("y", .idx 1)], 5)]⟩

/-- The matrix `tensor(y[2],z[2])` with rows `[7,11]` and `[13,17]`. -/
def mat_b : STensor :=
  ⟨[("y", some 2), ("z", some 2)],
   [([("y", .idx 0), ("z", .idx 0)], 7), ([("y", .idx 0), ("z", .idx 1)], 11),
    ([("y", .idx 1), ("z", .idx 0)], 13), ([("y", .idx 1), ("z", .idx 1)], 17)]⟩

/-- The AST of `map(a,f(x)(x+1))`. -/
def good_map_ast : Node := .map_ (.param 0) (.add (.param 0) (.num 1))

/-- The AST of `join(a,b,f(x,y)(x+y))`. -/
def good_join_ast : Node := .join_ (.param 0) (.param 1) (.add (.param 0) (.param 1))

/-- The AST of `tensor(a[10],b[10])(a+b)`. -/
def good_tensor_ast : Node := .create_ [("a", 10), ("b", 10)] (.add (.param 0) (.param 1))

/-- The AST of `map(a,f(x)(map(x,f(i)(i+1))))`. -/
def bad_map_ast : Node :=
  .map_ (.param 0) (.map_ (.param 0) (.add (.param 0) (.num 1)))

/-- The AST of `join(a,b,f(x,y)(join(x,y,f(i,j)(i+j))))`. -/
def bad_join_ast : Node :=
  .join_ (.param 0) (.param 1) (.join_ (.param 0) (.param 1) (.add (.param 0) (.param 1)))

/-- The AST of `tensor(a[10],b[10])(join(a,b,f(i,j)(i+j)))`. -/
def bad_tensor_ast : Node :=
  .create_ [("a", 10), ("b", 10)] (.join_ (.param 0) (.param 1) (.add (.param 0) (.param 1)))

/-- The AST of `a+10`. -/
def add_ten_ast : Node := .add (.param 0) (.num 10)

/-- The one-parameter function holding `a+10`. -/
def add_ten_fn : FunctionM := ⟨1, Except.ok add_ten_ast⟩

/-- The nested-if expression text of the branch-counting test. -/
def nested_if_text : String := "if(a<10,if(a<9,if(a<8,if(a<7,5,4),3),2),1)"

/-- The parameter names of the invalid-expression test. -/
def amp_params : List String := ["x", "y", "z", "w"]

/-- The invalid expression text of that test (ampersand is not an
operator of the grammar). -/
def amp_text : String := "x & y"

/-- The typed compilation of `reduce(a*b,sum)` at `tensor(x[3])`
parameters under the reference engine. -/
def dot_ifun_typed : InterpretedFunctionM := makeIF simpleEngine dot_fn ⟨[tx3, tx3]⟩

/-- The untyped compilation of `reduce(a*b,sum)` under the reference
engine. -/
def dot_ifun_untyped : InterpretedFunctionM := makeIF simpleEngine dot_fn NodeTypesM.empty

/-- The typed compilation of `reduce(a*b,sum,y)` under the reference
engine (both parameters declared `tensor(x[2],y[2])`, as in the test). -/
def mat_ifun : InterpretedFunctionM := makeIF simpleEngine mat_fn ⟨[txy, txy]⟩

/-- The matrix-multiplication result value. -/
def mat_result : Value := evalIF simpleEngine mat_ifun [.tensor mat_a, .tensor mat_b]

/-! ## Compiler correctness -/

theorem simple_conforming : Conforming simpleEngine :=
  ⟨rfl, rfl, rfl, rfl, rfl, fun _ _ => rfl⟩

theorem dot_rewrite_sem (t : TF) (ps : List Value) :
    interpTF (dot_rewrite t) ps = interpTF t ps := by
  unfold dot_rewrite
  split
  · rfl
  · rfl

theorem default_conforming : Conforming defaultEngine :=
  ⟨rfl, rfl, rfl, rfl, rfl, fun t ps => dot_rewrite_sem t ps⟩

theorem drop_len_append {α : Type} (a b : List α) : (a ++ b).drop a.length = b := by
  induction a with
  | nil => rfl
  | cons h t ih => simp [ih]

theorem drop_len_cons {α : Type} (a : List α) (x : α) (l : List α) :
    (a ++ x :: l).drop (a.length + 1) = l := by
  induction a with
  | nil => rfl
  | cons h t ih => simp [ih]

theorem joinV_dd (f : ℤ → ℤ → ℤ) (x y : ℤ) :
    joinV f (.double x) (.double y) = .double (f x y) := rfl

theorem op2sem_conf (eng : Engine) (h : eng.join = joinV) (k : Op2) (a b : Value) :
    op2sem eng k a b = joinV (fn2 k) a b := by
  cases a <;> cases b <;> simp [op2sem, h, joinV_dd]

theorem fusionOf_sem (nt : NodeTypesM) (a : Node) (tf : TF)
    (h : fusionOf nt a = some tf) (ps : List Value) :
    interpTF tf ps = denote a ps ∧ ifCount a ps = 0 := by
  unfold fusionOf at h
  split at h
  · rename_i i j
    split at h
    · cases h
      exact ⟨rfl, rfl⟩
    · cases h
  · cases h

theorem exec_fuel (eng : Engine) (ps : List Value) :
    ∀ (f₁ f₂ : ℕ) (l : List Instr) (st : EState),
      l.length ≤ f₁ → l.length ≤ f₂ →
      exec eng ps f₁ l st = exec eng ps f₂ l st := by
  intro f₁
  induction f₁ with
  | zero =>
    intro f₂ l st h₁ _
    have hl : l = [] := List.eq_nil_of_length_eq_zero (Nat.le_zero.mp h₁)
    subst hl
    cases f₂ <;> rfl
  | succ g ih =>
    intro f₂ l st h₁ h₂
    cases l with
    | nil => cases f₂ <;> rfl
    | cons ins rest =>
      cases f₂ with
      | zero => simp at h₂
      | succ h =>
        have hr₁ : rest.length ≤ g := by simpa using h₁
        have hr₂ : rest.length ≤ h := by simpa using h₂
        have hd₁ : ∀ k, (rest.drop k).length ≤ g := fun k => by
          rw [List.length_drop]; omega
        have hd₂ : ∀ k, (rest.drop k).length ≤ h := fun k => by
          rw [List.length_drop]; omega
        cases ins with
        | push v => exact ih h rest _ hr₁ hr₂
        | load i => exact ih h rest _ hr₁ hr₂
        | op2 k => exact ih h rest _ hr₁ hr₂
        | condJump skip =>
          simp only [exec]
          split
          · exact ih h rest _ hr₁ hr₂
          · exact ih h (rest.drop skip) _ (hd₁ skip) (hd₂ skip)
        | jump skip => exact ih h (rest.drop skip) _ (hd₁ skip) (hd₂ skip)
        | mapI lam => exact ih h rest _ hr₁ hr₂
        | joinI lam => exact ih h rest _ hr₁ hr₂
        | reduceI g' ds => exact ih h rest _ hr₁ hr₂
        | concatI d => exact ih h rest _ hr₁ hr₂
        | renameI fr toL => exact ih h rest _ hr₁ hr₂
        | createI dims lam => exact ih h rest _ hr₁ hr₂
        | tfInstr t => exact ih h rest _ hr₁ hr₂
        | errorInstr => exact ih h rest _ hr₁ hr₂

/-- The correctness of instruction selection against the denotational
semantics, for any conforming engine: running the code compiled for a
tree, followed by any continuation, pushes exactly the tree's denotation
and adds exactly its conditional count to the diagnostic counter. -/
theorem exec_compile (eng : Engine) (hc : Conforming eng) (nt : NodeTypesM) (ps : List Value)
    (e : Node) :
    ∀ (Q : List Instr) (st : EState) (fuel : ℕ),
      (compileN eng nt e ++ Q).length ≤ fuel →
      exec eng ps fuel (compileN eng nt e ++ Q) st
        = exec eng ps Q.length Q ⟨denote e ps :: st.stack, st.ifCnt + ifCount e ps⟩ := by
  induction e with
  | num v =>
    intro Q st fuel hf
    simp only [compileN, List.singleton_append] at hf ⊢
    rw [exec_fuel eng ps fuel _ _ _ hf le_rfl]
    simp only [List.length_cons, exec]
    simp [denote, ifCount]
  | param i =>
    intro Q st fuel hf
    simp only [compileN, List.singleton_append] at hf ⊢
    rw [exec_fuel eng ps fuel _ _ _ hf le_rfl]
    simp only [List.length_cons, exec]
    simp [denote, ifCount]
  | add a b iha ihb =>
    intro Q st fuel hf
    simp only [compileN, List.append_assoc, List.singleton_append, List.cons_append, List.nil_append] at hf ⊢
    rw [iha _ st fuel hf, ihb _ _ _ le_rfl]
    simp only [List.length_cons, exec]
    congr 1
    simp [pop2, op2sem_conf eng hc.join_eq, denote, ifCount, Nat.add_assoc]
  | sub a b iha ihb =>
    intro Q st fuel hf
    simp only [compileN, List.append_assoc, List.singleton_append, List.cons_append, List.nil_append] at hf ⊢
    rw [iha _ st fuel hf, ihb _ _ _ le_rfl]
    simp only [List.length_cons, exec]
    congr 1
    simp [pop2, op2sem_conf eng hc.join_eq, denote, ifCount, Nat.add_assoc]
  | mul a b iha ihb =>
    intro Q st fuel hf
    simp only [compileN, List.append_assoc, List.singleton_append, List.cons_append, List.nil_append] at hf ⊢
    rw [iha _ st fuel hf, ihb _ _ _ le_rfl]
    simp only [List.length_cons, exec]
    congr 1
    simp [pop2, op2sem_conf eng hc.join_eq, denote, ifCount, Nat.add_assoc]
  | div a b iha ihb =>
    intro Q st fuel hf
    simp only [compileN, List.append_assoc, List.singleton_append, List.cons_append, List.nil_append] at hf ⊢
    rw [iha _ st fuel hf, ihb _ _ _ le_rfl]
    simp only [List.length_cons, exec]
    congr 1
    simp [pop2, op2sem_conf eng hc.join_eq, denote, ifCount, Nat.add_assoc]
  | less a b iha ihb =>
    intro Q st fuel hf
    simp only [compileN, List.append_assoc, List.singleton_append, List.cons_append, List.nil_append] at hf ⊢
    rw [iha _ st fuel hf, ihb _ _ _ le_rfl]
    simp only [List.length_cons, exec]
    congr 1
    simp [pop2, op2sem_conf eng hc.join_eq, denote, ifCount, Nat.add_assoc]
  | if_ c t e ihc iht ihe =>
    intro Q st fuel hf
    simp only [compileN, List.append_assoc, List.singleton_append, List.cons_append, List.nil_append] at hf ⊢
    rw [ihc _ st fuel hf]
    simp only [List.length_cons, exec, List.headD_cons, List.tail_cons, List.append_eq]
    cases hcond : isTrue (denote c ps) with
    | true =>
      simp only [if_true]
      rw [iht _ _ _ le_rfl]
      simp only [List.length_cons, exec, List.append_eq]
      rw [drop_len_append]
      rw [exec_fuel eng ps _ Q.length Q _ (by simp) le_rfl]
      congr 1
      simp [denote, ifCount, hcond, Nat.add_assoc]
    | false =>
      simp only [Bool.false_eq_true, if_false]
      simp only [drop_len_cons]
      rw [ihe _ _ _ (by simp only [List.length_append, List.length_cons]; omega)]
      congr 1
      simp [denote, ifCount, hcond, Nat.add_assoc]
  | map_ a lam iha =>
    intro Q st fuel hf
    simp only [compileN, List.append_assoc, List.singleton_append, List.cons_append, List.nil_append] at hf ⊢
    rw [iha _ st fuel hf]
    simp only [List.length_cons, exec]
    congr 1
    simp [pop1, denote, ifCount, hc.map_eq]
  | join_ a b lam iha ihb =>
    intro Q st fuel hf
    simp only [compileN, List.append_assoc, List.singleton_append, List.cons_append, List.nil_append] at hf ⊢
    rw [iha _ st fuel hf, ihb _ _ _ le_rfl]
    simp only [List.length_cons, exec]
    congr 1
    simp [pop2, denote, ifCount, hc.join_eq, Nat.add_assoc]
  | reduce_ a g ds iha =>
    intro Q st fuel hf
    cases hfus : fusionOf nt a with
    | some tf =>
      obtain ⟨hsem, hic⟩ := fusionOf_sem nt a tf hfus ps
      simp only [compileN, hfus, List.singleton_append] at hf ⊢
      rw [exec_fuel eng ps fuel _ _ _ hf le_rfl]
      simp only [List.length_cons, exec]
      congr 1
      simp [denote, ifCount, hic, hc.compile_sem, interpTF, hsem]
    | none =>
      simp only [compileN, hfus, List.append_assoc, List.singleton_append] at hf ⊢
      rw [iha _ st fuel hf]
      simp only [List.length_cons, exec]
      congr 1
      simp [pop1, denote, ifCount, hc.reduce_eq]
  | concat_ a b d iha ihb =>
    intro Q st fuel hf
    simp only [compileN, List.append_assoc, List.singleton_append, List.cons_append, List.nil_append] at hf ⊢
    rw [iha _ st fuel hf, ihb _ _ _ le_rfl]
    simp only [List.length_cons, exec]
    congr 1
    simp [pop2, denote, ifCount, hc.concat_eq, Nat.add_assoc]
  | rename_ a fr toL iha =>
    intro Q st fuel hf
    simp only [compileN, List.append_assoc, List.singleton_append, List.cons_append, List.nil_append] at hf ⊢
    rw [iha _ st fuel hf]
    simp only [List.length_cons, exec]
    congr 1
    simp [pop1, denote, ifCount, hc.rename_eq]
  | create_ dims lam =>
    intro Q st fuel hf
    simp only [compileN, List.singleton_append] at hf ⊢
    rw [exec_fuel eng ps fuel _ _ _ hf le_rfl]
    simp only [List.length_cons, exec]
    simp [denote, ifCount]

/-- Evaluating a compiled function in a fresh context yields exactly the
root's denotation, for any conforming engine and any NodeTypes pass. -/
theorem evalIF_denote (eng : Engine) (hc : Conforming eng) (nt : NodeTypesM)
    (f : FunctionM) (n : Node) (hr : f.root = .ok n) (ps : List Value)
    (hl : ps.length = f.numParams) :
    evalIF eng (makeIF eng f nt) ps = denote n ps := by
  unfold evalIF makeIF runProg execRun
  simp only [hr, hl, if_true]
  have h := exec_compile eng hc nt ps n [] ⟨[], 0⟩ (compileN eng nt n ++ []).length le_rfl
  simp only [List.append_nil] at h
  simp [h]
  rfl

/-- The taken-branch counter of a fresh context after one evaluation is
exactly the denotational conditional count, for any conforming engine. -/
theorem if_cnt_denote (eng : Engine) (hc : Conforming eng) (nt : NodeTypesM)
    (f : FunctionM) (n : Node) (hr : f.root = .ok n) (ps : List Value) :
    if_cnt eng (makeIF eng f nt) ps = ifCount n ps := by
  unfold if_cnt makeIF runProg execRun
  simp only [hr]
  have h := exec_compile eng hc nt ps n [] ⟨[], 0⟩ (compileN eng nt n ++ []).length le_rfl
  simp only [List.append_nil] at h
  simp [h]
  rfl

/-! ## Codec roundtrip -/

theorem decCoord_enc (c : Coord) (r : List Tok) : decCoord (encCoord c ++ r) = some (c, r) := by
  cases c <;> rfl

theorem decAddrEntries_enc (a : Addr) (r : List Tok) :
    decAddrEntries a.length (a.flatMap (fun p => Tok.tstr p.1 :: encCoord p.2) ++ r)
      = some (a, r) := by
  induction a with
  | nil => rfl
  | cons p rest ih =>
    simp only [List.flatMap] at ih
    simp [decAddrEntries, List.append_assoc, decCoord_enc, ih]

theorem decAddr_enc (a : Addr) (r : List Tok) : decAddr (encAddr a ++ r) = some (a, r) := by
  simp [encAddr, decAddr, decAddrEntries_enc]

theorem decDim_enc (d : String × Option ℕ) (r : List Tok) :
    decDim (encDim d ++ r) = some (d, r) := by
  obtain ⟨s, sz⟩ := d
  cases sz <;> rfl

theorem decDims_enc (ds : List (String × Option ℕ)) (r : List Tok) :
    decDims ds.length (ds.flatMap encDim ++ r) = some (ds, r) := by
  induction ds with
  | nil => rfl
  | cons d rest ih =>
    simp [decDims, List.append_assoc, decDim_enc, ih]

theorem decCell_enc (c : Addr × ℤ) (r : List Tok) : decCell (encCell c ++ r) = some (c, r) := by
  simp [encCell, decCell, List.append_assoc, decAddr_enc]

theorem decCells_enc (cs : List (Addr × ℤ)) (r : List Tok) :
    decCells cs.length (cs.flatMap encCell ++ r) = some (cs, r) := by
  induction cs with
  | nil => rfl
  | cons c rest ih =>
    simp [decCells, List.append_assoc, decCell_enc, ih]

theorem decodeT_enc (t : STensor) (r : List Tok) : decodeT (encodeT t ++ r) = some (t, r) := by
  simp [encodeT, decodeT, List.append_assoc, decDims_enc, decCells_enc]

theorem simple_roundtrip (v : Value) (r : List Tok) :
    simple_decode (simple_encode v ++ r) = some (v, r) := by
  cases v <;> simp [simple_encode, simple_decode, decodeT_enc]

theorem default_roundtrip (v : Value) (r : List Tok) :
    default_decode (default_encode v ++ r) = some (v, r) := by
  simp [default_encode, default_decode, simple_roundtrip]

/-! ## Issue detection characterization -/

theorem append_ne_nil_iff {α : Type} (a b : List α) : a ++ b ≠ [] ↔ a ≠ [] ∨ b ≠ [] := by
  simp [List.append_eq_nil]
  tauto

theorem flag_ne_nil_iff (b : Bool) (m : String) :
    (if b = true then [m] else []) ≠ [] ↔ b = true := by
  cases b <;> simp

theorem issue_list_ne_nil (n : Node) : issue_list n ≠ [] ↔ HasBadLambda n := by
  induction n with
  | num v => simp only [issue_list]; exact ⟨fun h => absurd rfl h, fun h => by cases h⟩
  | param i => simp only [issue_list]; exact ⟨fun h => absurd rfl h, fun h => by cases h⟩
  | add a b iha ihb =>
    simp only [issue_list]
    rw [append_ne_nil_iff, iha, ihb]
    constructor
    · rintro (h | h)
      · exact .add_l h
      · exact .add_r h
    · intro h
      cases h with
      | add_l h => exact Or.inl h
      | add_r h => exact Or.inr h
  | sub a b iha ihb =>
    simp only [issue_list]
    rw [append_ne_nil_iff, iha, ihb]
    constructor
    · rintro (h | h)
      · exact .sub_l h
      · exact .sub_r h
    · intro h
      cases h with
      | sub_l h => exact Or.inl h
      | sub_r h => exact Or.inr h
  | mul a b iha ihb =>
    simp only [issue_list]
    rw [append_ne_nil_iff, iha, ihb]
    constructor
    · rintro (h | h)
      · exact .mul_l h
      · exact .mul_r h
    · intro h
      cases h with
      | mul_l h => exact Or.inl h
      | mul_r h => exact Or.inr h
  | div a b iha ihb =>
    simp only [issue_list]
    rw [append_ne_nil_iff, iha, ihb]
    constructor
    · rintro (h | h)
      · exact .div_l h
      · exact .div_r h
    · intro h
      cases h with
      | div_l h => exact Or.inl h
      | div_r h => exact Or.inr h
  | less a b iha ihb =>
    simp only [issue_list]
    rw [append_ne_nil_iff, iha, ihb]
    constructor
    · rintro (h | h)
      · exact .less_l h
      · exact .less_r h
    · intro h
      cases h with
      | less_l h => exact Or.inl h
      | less_r h => exact Or.inr h
  | if_ c t e ihc iht ihe =>
    simp only [issue_list]
    rw [append_ne_nil_iff, append_ne_nil_iff, ihc, iht, ihe]
    constructor
    · rintro ((h | h) | h)
      · exact .if_c h
      · exact .if_t h
      · exact .if_e h
    · intro h
      cases h with
      | if_c h => exact Or.inl (Or.inl h)
      | if_t h => exact Or.inl (Or.inr h)
      | if_e h => exact Or.inr h
  | map_ a lam iha ihl =>
    simp only [issue_list]
    rw [append_ne_nil_iff, append_ne_nil_iff, iha, flag_ne_nil_iff, ihl]
    constructor
    · rintro ((h | h) | h)
      · exact .map_arg h
      · exact .map_here h
      · exact .map_lam h
    · intro h
      cases h with
      | map_arg h => exact Or.inl (Or.inl h)
      | map_here h => exact Or.inl (Or.inr h)
      | map_lam h => exact Or.inr h
  | join_ a b lam iha ihb ihl =>
    simp only [issue_list]
    rw [append_ne_nil_iff, append_ne_nil_iff, append_ne_nil_iff, iha, ihb, flag_ne_nil_iff, ihl]
    constructor
    · rintro (((h | h) | h) | h)
      · exact .join_l h
      · exact .join_r h
      · exact .join_here h
      · exact .join_lam h
    · intro h
      cases h with
      | join_l h => exact Or.inl (Or.inl (Or.inl h))
      | join_r h => exact Or.inl (Or.inl (Or.inr h))
      | join_here h => exact Or.inl (Or.inr h)
      | join_lam h => exact Or.inr h
  | reduce_ a g ds iha =>
    simp only [issue_list]
    rw [iha]
    constructor
    · exact fun h => .reduce_arg h
    · intro h
      cases h with
      | reduce_arg h => exact h
  | concat_ a b d iha ihb =>
    simp only [issue_list]
    rw [append_ne_nil_iff, iha, ihb]
    constructor
    · rintro (h | h)
      · exact .concat_l h
      · exact .concat_r h
    · intro h
      cases h with
      | concat_l h => exact Or.inl h
      | concat_r h => exact Or.inr h
  | rename_ a fr toL iha =>
    simp only [issue_list]
    rw [iha]
    constructor
    · exact fun h => .rename_arg h
    · intro h
      cases h with
      | rename_arg h => exact h
  | create_ dims lam ihl =>
    simp only [issue_list]
    rw [append_ne_nil_iff, flag_ne_nil_iff, ihl]
    constructor
    · rintro (h | h)
      · exact .create_here h
      · exact .create_lam h
    · intro h
      cases h with
      | create_here h => exact Or.inl h
      | create_lam h => exact Or.inr h

theorem detect_issues_ok (k : ℕ) (n : Node) :
    detect_issues ⟨k, Except.ok n⟩ = true ↔ HasBadLambda n := by
  rw [← issue_list_ne_nil]
  simp [detect_issues, List.isEmpty_iff]

/-! ## Claims -/

/-- C1: for every expression Function that parses without error and has
no detected issues, and for every parameter-count-matching list of
double-valued inputs, compiling under the reference engine (untyped), the
default engine (untyped) and the default engine with all parameters typed
as double, and evaluating each compiled program on the same inputs,
yields the same scalar result (exactly, in the rational model). -/
theorem cross_engine_conformance (f : FunctionM) (n : Node) (ps : List Value)
    (hroot : f.root = Except.ok n) (_hiss : detect_issues f = false)
    (hlen : ps.length = f.numParams) (_hdbl : ∀ v ∈ ps, v.is_double = true) :
    evalIF simpleEngine (makeIF simpleEngine f NodeTypesM.empty) ps
      = evalIF defaultEngine (makeIF defaultEngine f NodeTypesM.empty) ps ∧
    evalIF defaultEngine (makeIF defaultEngine f NodeTypesM.empty) ps
      = evalIF defaultEngine (makeIF defaultEngine f ⟨List.replicate f.numParams VType.dbl⟩) ps := by
  have h1 := evalIF_denote simpleEngine simple_conforming NodeTypesM.empty f n hroot ps hlen
  have h2 := evalIF_denote defaultEngine default_conforming NodeTypesM.empty f n hroot ps hlen
  have h3 := evalIF_denote defaultEngine default_conforming
    ⟨List.replicate f.numParams VType.dbl⟩ f n hroot ps hlen
  exact ⟨h1.trans h2.symm, h2.trans h3.symm⟩

/-- Witness for C1: the conformance theorem applied to `a+10` with the
double input 20. -/
theorem cross_engine_conformance_witness :
    detect_issues add_ten_fn = false ∧
    evalIF simpleEngine (makeIF simpleEngine add_ten_fn NodeTypesM.empty) [Value.double 20]
      = evalIF defaultEngine (makeIF defaultEngine add_ten_fn NodeTypesM.empty)
          [Value.double 20] :=
  ⟨rfl,
   (cross_engine_conformance add_ten_fn add_ten_ast [Value.double 20]
     rfl rfl rfl (by decide)).1⟩

/-- C2: every expression text that fails to parse yields a Function with
`has_error` true, and evaluating the compiled fallback program returns an
error-tagged Value as a normal result — never a crash. -/
theorem invalid_function_error (pnames : List String) (text : String) (ps : List Value)
    (h : (parseF pnames text).has_error = true) :
    (evalIF simpleEngine (makeIF simpleEngine (parseF pnames text) NodeTypesM.empty) ps).is_error
      = true := by
  cases hr : (parseF pnames text).root with
  | ok n =>
    unfold FunctionM.has_error at h
    rw [hr] at h
    exact absurd h (by simp)
  | error msg =>
    unfold evalIF makeIF runProg execRun
    rw [hr]
    by_cases hl : ps.length = (parseF pnames text).numParams
    · rw [if_pos hl]
      rfl
    · rw [if_neg hl]
      rfl

/-- Witness for C2: the invalid expression `x & y` has a parse error and
its compiled program evaluates to the error value. -/
theorem invalid_function_error_witness :
    (parseF amp_params amp_text).has_error = true ∧
    (evalIF simpleEngine (makeIF simpleEngine (parseF amp_params amp_text) NodeTypesM.empty)
      [Value.double 1, Value.double 2, Value.double 3, Value.double 4]).is_error = true :=
  ⟨rfl, invalid_function_error amp_params amp_text _ rfl⟩

/-- C3: the nested conditional expression, parsed from its text and
evaluated in a fresh context with `a` bound to 10, 9, 8, 7, 6, leaves the
taken-branch counter at exactly 1, 2, 3, 4, 4 — one increment per
evaluated conditional, never once per both branches. -/
theorem if_cnt_updates :
    (parseF ["a"] nested_if_text).root = Except.ok nested_if_ast ∧
    if_cnt simpleEngine (makeIF simpleEngine nested_if_fn NodeTypesM.empty) [.double 10] = 1 ∧
    if_cnt simpleEngine (makeIF simpleEngine nested_if_fn NodeTypesM.empty) [.double 9] = 2 ∧
    if_cnt simpleEngine (makeIF simpleEngine nested_if_fn NodeTypesM.empty) [.double 8] = 3 ∧
    if_cnt simpleEngine (makeIF simpleEngine nested_if_fn NodeTypesM.empty) [.double 7] = 4 ∧
    if_cnt simpleEngine (makeIF simpleEngine nested_if_fn NodeTypesM.empty) [.double 6] = 4 :=
  ⟨rfl, rfl, rfl, rfl, rfl, rfl⟩

/-- C4: `reduce(a*b,sum)` compiled with both parameters typed
`tensor(x[3])` has program size exactly 1, and evaluating it on the
vectors `[5,3,2]` and `[7,11,13]` yields the scalar double
`5*7 + 3*11 + 2*13 = 94`. -/
theorem dot_product_typed :
    program_size dot_ifun_typed = 1 ∧
    evalIF simpleEngine dot_ifun_typed [.tensor vec_a, .tensor vec_b]
      = .double (5 * 7 + 3 * 11 + 2 * 13) :=
  ⟨rfl, by decide⟩

/-- C5: `reduce(a*b,sum)` compiled untyped evaluates the double inputs
2 and 3 to the scalar 6, and its instruction count strictly exceeds the
fully typed dot-product compilation of the same expression. -/
theorem dot_product_untyped_not_fused :
    evalIF simpleEngine dot_ifun_untyped [.double 2, .double 3] = .double 6 ∧
    program_size dot_ifun_typed < program_size dot_ifun_untyped :=
  ⟨by decide, by decide⟩

/-- C6: `reduce(a*b,sum,y)` compiled with typed 2x2 tensor parameters,
evaluated on `tensor(x[2],y[2])` and `tensor(y[2],z[2])` inputs, produces
a `tensor(x[2],z[2])` whose every cell is the matrix-multiplication sum
over the shared dimension `y`. -/
theorem matmul_cells :
    mat_result.is_tensor = true ∧
    value_dims mat_result = [("x", some 2), ("z", some 2)] ∧
    value_cell mat_result [("x", .idx 0), ("z", .idx 0)] = some (1 * 7 + 2 * 13) ∧
    value_cell mat_result [("x", .idx 0), ("z", .idx 1)] = some (1 * 11 + 2 * 17) ∧
    value_cell mat_result [("x", .idx 1), ("z", .idx 0)] = some (3 * 7 + 5 * 13) ∧
    value_cell mat_result [("x", .idx 1), ("z", .idx 1)] = some (3 * 11 + 5 * 17) := by
  refine ⟨by decide, by decide, by decide, by decide, by decide, by decide⟩

/-- C7: issue detection reports issues exactly when some lambda body
passed to `map`, `join` or tensor construction contains a tensor-level
operation; the three scalar-lambda examples report none and the three
nested-tensor-lambda examples report issues. -/
theorem detect_issues_characterization :
    (∀ (k : ℕ) (n : Node), detect_issues ⟨k, Except.ok n⟩ = true ↔ HasBadLambda n) ∧
    detect_issues ⟨1, Except.ok good_map_ast⟩ = false ∧
    detect_issues ⟨2, Except.ok good_join_ast⟩ = false ∧
    detect_issues ⟨0, Except.ok good_tensor_ast⟩ = false ∧
    detect_issues ⟨1, Except.ok bad_map_ast⟩ = true ∧
    detect_issues ⟨2, Except.ok bad_join_ast⟩ = true ∧
    detect_issues ⟨0, Except.ok bad_tensor_ast⟩ = true :=
  ⟨detect_issues_ok, rfl, rfl, rfl, rfl, rfl, rfl⟩

/-- C8: for every tensor value, encoding and then decoding with the same
engine reproduces the value exactly (so the engine's equal reports it
equal), for both engines, with no input beyond the encoded stream
itself. -/
theorem encode_decode_equal :
    ∀ t : STensor,
      simpleEngine.decode (simpleEngine.encode (Value.tensor t)) = some (Value.tensor t, []) ∧
      simpleEngine.equalT (Value.tensor t) (Value.tensor t) = true ∧
      defaultEngine.decode (defaultEngine.encode (Value.tensor t)) = some (Value.tensor t, []) ∧
      defaultEngine.equalT (Value.tensor t) (Value.tensor t) = true := by
  intro t
  refine ⟨?_, ?_, ?_, ?_⟩
  · simpa [simpleEngine] using simple_roundtrip (Value.tensor t) []
  · simp [simpleEngine]
  · simpa [defaultEngine] using default_roundtrip (Value.tensor t) []
  · simp [defaultEngine]

/-- C9: the base-class `TensorEngine::compile` is the identity transform
on the tensor IR, and the reference engine, declaring no override,
inherits exactly it. -/
theorem compile_default_is_identity :
    (∀ e : TF, compile_default e = e) ∧ simpleEngine.compileIR = compile_default :=
  ⟨fun _ => rfl, rfl⟩

end VespaEval
